import Mathlib

set_option autoImplicit false

/-!
Shallow embedding of the offline-first sync engine of the habit-tracking
dashboard: the IndexedDB-backed implementation in `src/lib/sync.ts`
(types `Habit`, `HabitEntry`, `Settings`, `SyncQueueItem`; operations
`generateEntryId`, `getHabit`, `getHabitEntry`, `saveHabitEntry`,
`deleteHabit`, `deleteHabitEntry`, `reorderHabits`, `saveSettings`,
`queueForSync`, `performSync`, the pull-merge loops of `pullFromServer`)
and the migration runner in `src/lib/migrations.ts`.

Modelling conventions:
* Timestamps (`created_at`, `updated_at`, `last_sync_at`, `Date.now()`)
  are `Nat`.  The code stores ISO-8601 strings produced by
  `toISOString()` and compares them through `new Date(_)`; that
  comparison is order-isomorphic to the underlying millisecond value,
  so `Nat` with `≤` is a faithful image.  The wall clock `now` is passed
  explicitly to every operation that reads it.
* Each IndexedDB object store is a list of records with unique keys
  (IndexedDB enforces key uniqueness through `keyPath`).  `db.get` is
  `storeGet`, `db.put` is `storePut` (replace-or-insert by key),
  `db.delete` is `storeErase`.
* The sync queue list is kept in enqueue order; `queueForSync` appends
  (`db.add`) and `Date.now()` is non-decreasing, so reading the queue
  through the `by-timestamp` index in `performSync` returns exactly this
  list.
* The remote store (Supabase) is a parameter of `performSync`: for each
  of the four batched calls it answers with `none` (success) or
  `some msg` (the error message of the failed call).
-/

namespace Mausam

/-- A habit record, as in `sync.ts`. -/
structure Habit where
  id : String
  user_id : String
  name : String
  icon : String
  color : String
  order_index : Int
  is_two_step : Bool
  created_at : Nat
  updated_at : Nat
  schema_version : Nat
deriving DecidableEq

/-- A habit entry record, as in `sync.ts`. -/
structure HabitEntry where
  id : String
  user_id : String
  habit_id : String
  date : String
  value : Int
  fasting_hours : Option Int
  note : Option String
  updated_at : Nat
deriving DecidableEq

/-- Opaque UI-preferences blob (`ui_prefs: Record<string, unknown>`). -/
abbrev UiPrefs := List (String × String)

/-- A settings record, as in `sync.ts` (`last_sync_at: string | null`). -/
structure Settings where
  user_id : String
  ui_prefs : UiPrefs
  last_sync_at : Option Nat
deriving DecidableEq

/-- Target table of a queued operation. -/
inductive Table where
  | habits
  | habit_entries
deriving DecidableEq

/-- The string name of a table, as used in queue-item ids. -/
def Table.nameStr : Table → String
  | .habits => "habits"
  | .habit_entries => "habit_entries"

/-- Kind of a queued operation. -/
inductive SyncOp where
  | upsert
  | delete
deriving DecidableEq

/-- The payload snapshot carried by a queue item (`data` in the code):
a full record for upserts, an `id`/`user_id` pair for deletes. -/
inductive QueueData where
  | habitData (h : Habit)
  | entryData (e : HabitEntry)
  | delData (id : String) (user_id : String)
deriving DecidableEq

/-- `data.id` of a queue payload. -/
def QueueData.dataId : QueueData → String
  | .habitData h => h.id
  | .entryData e => e.id
  | .delData i _ => i

/-- `data.user_id` of a queue payload. -/
def QueueData.dataUserId : QueueData → String
  | .habitData h => h.user_id
  | .entryData e => e.user_id
  | .delData _ u => u

/-- A pending operation in the outbox (`SyncQueueItem` in the code). -/
structure SyncQueueItem where
  id : String
  table : Table
  operation : SyncOp
  data : QueueData
  timestamp : Nat
  retryCount : Nat
deriving DecidableEq

/-- The local durable store: three collections plus the sync queue. -/
structure DB where
  habits : List Habit
  habitEntries : List HabitEntry
  settings : List Settings
  syncQueue : List SyncQueueItem
deriving DecidableEq

/-! ### Object-store primitives -/

/-- `db.get(store, key)`: the record stored under key `k`, if any. -/
def storeGet {α : Type} (key : α → String) (l : List α) (k : String) : Option α :=
  l.find? (fun x => key x == k)

/-- `db.put(store, r)`: replace the record with `r`'s key, or insert `r`. -/
def storePut {α : Type} (key : α → String) (l : List α) (r : α) : List α :=
  if l.any (fun x => key x == key r) then
    l.map (fun x => if key x == key r then r else x)
  else
    l ++ [r]

/-- `db.delete(store, key)`: remove the record stored under key `k`. -/
def storeErase {α : Type} (key : α → String) (l : List α) (k : String) : List α :=
  l.filter (fun x => key x != k)

/-- Keys of a store are pairwise distinct (IndexedDB invariant). -/
def keysNodup {α : Type} (key : α → String) (l : List α) : Prop :=
  (l.map key).Nodup

/-! ### Identity and key scheme -/

/-- `generateEntryId(userId, habitId, date)`. -/
def generateEntryId (userId habitId date : String) : String :=
  userId ++ ":" ++ habitId ++ ":" ++ date

/-! ### Local reads -/

/-- `getHabit(userId, habitId)`. -/
def getHabit (db : DB) (userId habitId : String) : Option Habit :=
  match storeGet Habit.id db.habits habitId with
  | some habit => if habit.user_id == userId then some habit else none
  | none => none

/-- `getHabitEntry(userId, habitId, date)`: fetch under the computed
deterministic key `generateEntryId(userId, habitId, date)`. -/
def getHabitEntry (db : DB) (userId habitId date : String) : Option HabitEntry :=
  match storeGet HabitEntry.id db.habitEntries (generateEntryId userId habitId date) with
  | some entry => if entry.user_id == userId then some entry else none
  | none => none

/-! ### Sync queue -/

/-- `queueForSync(table, operation, data)`: append an outbox item with
`retryCount = 0` and id `table:data.id:now` (success path of `db.add`;
the duplicate-key failure of `db.add` is modelled where a claim needs
it, in `saveHabitEntryRun`). -/
def queueForSync (db : DB) (table : Table) (operation : SyncOp)
    (data : QueueData) (now : Nat) : DB :=
  { db with
    syncQueue := db.syncQueue ++
      [{ id := table.nameStr ++ ":" ++ data.dataId ++ ":" ++ toString now
         table := table
         operation := operation
         data := data
         timestamp := now
         retryCount := 0 }] }

/-! ### Mutation pipeline -/

/-- Parameter bundle of `saveHabitEntry` (`{value, fasting_hours?, note?}`). -/
structure EntryData where
  value : Int
  fasting_hours : Option Int
  note : Option String
deriving DecidableEq

/-- The full entry built by `saveHabitEntry` before storing it. -/
def mkEntry (userId habitId date : String) (data : EntryData) (now : Nat) :
    HabitEntry :=
  { id := generateEntryId userId habitId date
    user_id := userId
    habit_id := habitId
    date := date
    value := data.value
    fasting_hours := data.fasting_hours
    note := data.note
    updated_at := now }

/-- `saveHabitEntry(userId, habitId, date, data)`: build the entry under
the deterministic key, `db.put` it, then enqueue an upsert. -/
def saveHabitEntry (db : DB) (userId habitId date : String)
    (data : EntryData) (now : Nat) : DB :=
  let entry := mkEntry userId habitId date data now
  let db1 := { db with habitEntries := storePut HabitEntry.id db.habitEntries entry }
  queueForSync db1 .habit_entries .upsert (.entryData entry) now

/-- `saveHabitEntry` with the two awaited steps made explicit.  The
`db.put` on `habitEntries` and the `db.add` of `queueForSync` run in two
separate IndexedDB transactions, one after the other; if the `db.add`
throws (`enqueueOk = false`, e.g. a duplicate queue key when two
mutations of the same record land in the same millisecond), the put has
already committed and the exception propagates to the caller.  The
`Except.error` case carries the durable state at the moment of the
throw. -/
def saveHabitEntryRun (db : DB) (userId habitId date : String)
    (data : EntryData) (now : Nat) (enqueueOk : Bool) :
    Except DB (HabitEntry × DB) :=
  let entry := mkEntry userId habitId date data now
  let db1 := { db with habitEntries := storePut HabitEntry.id db.habitEntries entry }
  if enqueueOk then
    .ok (entry, queueForSync db1 .habit_entries .upsert (.entryData entry) now)
  else
    .error db1

/-- `deleteHabit(userId, habitId)`: if the stored habit belongs to the
caller, delete it and enqueue one `habits` delete.  (Nothing else: the
code touches neither `habitEntries` nor any per-entry queue item.) -/
def deleteHabit (db : DB) (userId habitId : String) (now : Nat) : DB :=
  match storeGet Habit.id db.habits habitId with
  | some habit =>
    if habit.user_id == userId then
      let db1 := { db with habits := storeErase Habit.id db.habits habitId }
      queueForSync db1 .habits .delete (.delData habitId userId) now
    else db
  | none => db

/-- `deleteHabitEntry(userId, habitId, date)`: fetch under the computed
deterministic key; when the record belongs to the caller, erase it and
enqueue one `habit_entries` delete. -/
def deleteHabitEntry (db : DB) (userId habitId date : String) (now : Nat) : DB :=
  match storeGet HabitEntry.id db.habitEntries (generateEntryId userId habitId date) with
  | some entry =>
    if entry.user_id == userId then
      queueForSync
        { db with habitEntries :=
            storeErase HabitEntry.id db.habitEntries (generateEntryId userId habitId date) }
        .habit_entries .delete (.delData (generateEntryId userId habitId date) userId) now
    else db
  | none => db

/-- One iteration of the `reorderHabits` loop at position `i` with habit
id `hid`: fetch, and when the habit belongs to the caller, restamp
`order_index`/`updated_at`, put it back and enqueue an upsert. -/
def reorderStep (userId : String) (now : Nat) (db : DB) (p : Nat × String) : DB :=
  match storeGet Habit.id db.habits p.2 with
  | some habit =>
    if habit.user_id == userId then
      let habit1 := { habit with order_index := Int.ofNat p.1, updated_at := now }
      let db1 := { db with habits := storePut Habit.id db.habits habit1 }
      queueForSync db1 .habits .upsert (.habitData habit1) now
    else db
  | none => db

/-- `reorderHabits(userId, habitIds)`. -/
def reorderHabits (db : DB) (userId : String) (habitIds : List String)
    (now : Nat) : DB :=
  habitIds.enum.foldl (reorderStep userId now) db

/-! ### Settings -/

/-- The `Partial<Settings>` argument of `saveSettings`.  A `none` field
is one that is absent or `null`/`undefined` — the `??` fallbacks in the
code treat those identically. -/
structure SettingsPatch where
  ui_prefs : Option UiPrefs
  last_sync_at : Option Nat
deriving DecidableEq

/-- `saveSettings(userId, settings)`. -/
def saveSettings (db : DB) (userId : String) (patch : SettingsPatch) : DB :=
  let existing := storeGet Settings.user_id db.settings userId
  let full : Settings :=
    { user_id := userId
      ui_prefs := patch.ui_prefs.getD ((existing.map Settings.ui_prefs).getD [])
      last_sync_at :=
        match patch.last_sync_at with
        | some t => some t
        | none => existing.bind Settings.last_sync_at }
  { db with settings := storePut Settings.user_id db.settings full }

/-! ### The sync engine: drain (`performSync`) -/

/-- The remote store's answer to each of the four batched calls of one
drain cycle: `none` means the call succeeds, `some msg` means it fails
with error message `msg`.  A call is only issued when its batch is
non-empty. -/
structure Remote where
  habitsUpsertErr : Option String
  habitsDeleteErr : Option String
  entriesUpsertErr : Option String
  entriesDeleteErr : Option String

/-- Accumulator of the partition loop of `performSync`: the four batch
arrays plus the errors pushed for items past the retry ceiling. -/
structure Partition where
  errors : List String
  habitsToUpsert : List QueueData
  habitsToDelete : List String
  entriesToUpsert : List QueueData
  entriesToDelete : List String
deriving DecidableEq

/-- One iteration of the `for (const item of queueItems)` loop. -/
def partitionStep (p : Partition) (item : SyncQueueItem) : Partition :=
  if item.retryCount > 5 then
    { p with errors := p.errors ++ ["Item " ++ item.id ++ " exceeded max retries"] }
  else
    match item.table, item.operation with
    | .habits, .upsert =>
      { p with habitsToUpsert := p.habitsToUpsert ++ [item.data] }
    | .habits, .delete =>
      { p with habitsToDelete := p.habitsToDelete ++ [item.data.dataId] }
    | .habit_entries, .upsert =>
      { p with entriesToUpsert := p.entriesToUpsert ++ [item.data] }
    | .habit_entries, .delete =>
      { p with entriesToDelete := p.entriesToDelete ++ [item.data.dataId] }

/-- The partition of the queue items into the four batches. -/
def partitionQueue (queueItems : List SyncQueueItem) : Partition :=
  queueItems.foldl partitionStep ⟨[], [], [], [], []⟩

/-- One remote call as issued by `performSync`, in issue order. -/
inductive SentBatch where
  | habitsUpsert (records : List QueueData)
  | habitsDelete (ids : List String)
  | entriesUpsert (records : List QueueData)
  | entriesDelete (ids : List String)
deriving DecidableEq

/-- The sequence of remote calls a drain cycle issues: the four batches,
each only when non-empty, always in the fixed order habits-upsert,
habits-delete, entries-upsert, entries-delete. -/
def sentBatches (p : Partition) : List SentBatch :=
  (if p.habitsToUpsert ≠ [] then [SentBatch.habitsUpsert p.habitsToUpsert] else []) ++
  (if p.habitsToDelete ≠ [] then [SentBatch.habitsDelete p.habitsToDelete] else []) ++
  (if p.entriesToUpsert ≠ [] then [SentBatch.entriesUpsert p.entriesToUpsert] else []) ++
  (if p.entriesToDelete ≠ [] then [SentBatch.entriesDelete p.entriesToDelete] else [])

/-- The per-record trace of one drain cycle: for every record sent to
the remote store, its table, operation kind and record id, in the order
the records leave the device. -/
def sentOps (p : Partition) : List (Table × SyncOp × String) :=
  p.habitsToUpsert.map (fun d => (Table.habits, SyncOp.upsert, d.dataId)) ++
  p.habitsToDelete.map (fun i => (Table.habits, SyncOp.delete, i)) ++
  p.entriesToUpsert.map (fun d => (Table.habit_entries, SyncOp.upsert, d.dataId)) ++
  p.entriesToDelete.map (fun i => (Table.habit_entries, SyncOp.delete, i))

/-- The errors pushed by the four batched remote calls, in code order. -/
def batchErrors (p : Partition) (remote : Remote) : List String :=
  (if p.habitsToUpsert ≠ [] then
    match remote.habitsUpsertErr with
    | some m => ["Habits upsert failed: " ++ m]
    | none => []
  else []) ++
  (if p.habitsToDelete ≠ [] then
    match remote.habitsDeleteErr with
    | some m => ["Habits delete failed: " ++ m]
    | none => []
  else []) ++
  (if p.entriesToUpsert ≠ [] then
    match remote.entriesUpsertErr with
    | some m => ["Entries upsert failed: " ++ m]
    | none => []
  else []) ++
  (if p.entriesToDelete ≠ [] then
    match remote.entriesDeleteErr with
    | some m => ["Entries delete failed: " ++ m]
    | none => []
  else [])

/-- `habitsToUpsert[0]?.user_id || entriesToUpsert[0]?.user_id`, with
JavaScript truthiness: `undefined` (empty batch) and the empty string
both fall through, and the final `if (userId)` rejects an empty or
missing result. -/
def lastSyncUser (p : Partition) : Option String :=
  match p.habitsToUpsert.head? with
  | some d => if d.dataUserId ≠ "" then some d.dataUserId else
      match p.entriesToUpsert.head? with
      | some e => if e.dataUserId ≠ "" then some e.dataUserId else none
      | none => none
  | none =>
      match p.entriesToUpsert.head? with
      | some e => if e.dataUserId ≠ "" then some e.dataUserId else none
      | none => none

/-- `item.retryCount++` as applied to every read queue item when the
cycle had errors. -/
def bumpRetry (item : SyncQueueItem) : SyncQueueItem :=
  { item with retryCount := item.retryCount + 1 }

/-- Result of one drain cycle: the new local state, the returned
`{success, errors}`, and the trace of issued remote calls. -/
structure SyncOutcome where
  db : DB
  success : Bool
  errors : List String
  sent : List SentBatch

/-- `performSync()` (online, not already syncing): read the queue in
timestamp order, partition it (items past the retry ceiling are skipped
with an error), issue the four batched remote calls, then — when the
error list is empty — delete every read item from the queue, otherwise
put every read item back with `retryCount` incremented; finally stamp
`last_sync_at` for the user taken from the first habits-upsert payload
(or, failing that, the first entries-upsert payload). -/
def performSync (db : DB) (remote : Remote) (now : Nat) : SyncOutcome :=
  let queueItems := db.syncQueue
  if queueItems.isEmpty then
    { db := db, success := true, errors := [], sent := [] }
  else
    let p := partitionQueue queueItems
    let errors := p.errors ++ batchErrors p remote
    let newQueue : List SyncQueueItem :=
      if errors = [] then []
      else queueItems.map bumpRetry
    let db1 := { db with syncQueue := newQueue }
    let db2 :=
      match lastSyncUser p with
      | some userId => saveSettings db1 userId ⟨none, some now⟩
      | none => db1
    { db := db2, success := errors = [], errors := errors, sent := sentBatches p }

/-! ### The sync engine: pull merge (`pullFromServer`) -/

/-- One iteration of a merge loop of `pullFromServer`: fetch the local
record under the remote record's key; when it is absent, or its
`updated_at` is at most the remote one (`new Date(remote.updated_at) >=
new Date(local.updated_at)` in the code), `db.put` the whole remote
record; otherwise keep the store untouched. -/
def lwwPut {α : Type} (key : α → String) (upd : α → Nat)
    (store : List α) (remote : α) : List α :=
  match storeGet key store (key remote) with
  | none => storePut key store remote
  | some localRec =>
    if upd localRec ≤ upd remote then storePut key store remote
    else store

/-- The habit merge loop body of `pullFromServer`. -/
def mergeHabitRecord : List Habit → Habit → List Habit :=
  lwwPut Habit.id Habit.updated_at

/-- The entry merge loop body of `pullFromServer`. -/
def mergeEntryRecord : List HabitEntry → HabitEntry → List HabitEntry :=
  lwwPut HabitEntry.id HabitEntry.updated_at

/-- The merge phase of `pullFromServer`: fold the two loops over the
fetched remote records, then stamp `last_sync_at = now` for the owner. -/
def pullMerge (db : DB) (userId : String) (remoteHabits : List Habit)
    (remoteEntries : List HabitEntry) (now : Nat) : DB :=
  let db1 := { db with habits := remoteHabits.foldl mergeHabitRecord db.habits }
  let db2 := { db1 with habitEntries := remoteEntries.foldl mergeEntryRecord db1.habitEntries }
  saveSettings db2 userId ⟨none, some now⟩

/-! ### The migration runner (`migrations.ts`) -/

/-- One line of the persisted migration log. -/
structure MigrationRecord where
  version : Nat
  appliedAt : Nat
  success : Bool
  error : Option String
deriving DecidableEq

/-- A migration step.  Its forward transform is abstracted by its
outcome: `Except.ok` when `up()` resolves, `Except.error msg` when it
throws.  The repository currently registers no migration (`migrations =
[]` holds only a commented-out example), so the runner is embedded
parametrically in the list it iterates. -/
structure Migration where
  version : Nat
  name : String
  upResult : Except String Unit

/-- The `localStorage` slice the migration runner touches: the backup
blob and the migration log. -/
structure MigrationState where
  backup : Option (List Habit × List HabitEntry × List Settings)
  log : List MigrationRecord
deriving DecidableEq

/-- `isMigrationApplied(version)`. -/
def isMigrationApplied (log : List MigrationRecord) (version : Nat) : Bool :=
  log.any (fun r => r.version == version && r.success)

/-- Result record of `runMigrations()`. -/
structure MigrationOutcome where
  state : MigrationState
  success : Bool
  applied : Nat
  errors : List String
deriving DecidableEq

/-- One iteration of the `for (const migration of migrations)` loop:
skip versions already logged successful; otherwise run the transform and
append a success or failure record.  The loop body has no early exit —
after a failure the fold continues with the remaining steps. -/
def migrationStep (now : Nat) (st : MigrationState × Nat × List String)
    (m : Migration) : MigrationState × Nat × List String :=
  if isMigrationApplied st.1.log m.version then st
  else
    match m.upResult with
    | .ok _ =>
      ({ st.1 with log := st.1.log ++ [⟨m.version, now, true, none⟩] },
        st.2.1 + 1, st.2.2)
    | .error msg =>
      ({ st.1 with log := st.1.log ++ [⟨m.version, now, false, some msg⟩] },
        st.2.1, st.2.2 ++ ["Migration " ++ m.name ++ " failed: " ++ msg])

/-- `runMigrations()`: back up the three collections, then fold the loop
over the registered migrations (success path of `createBackup`). -/
def runMigrations (migrations : List Migration) (db : DB)
    (st : MigrationState) (now : Nat) : MigrationOutcome :=
  let st1 : MigrationState :=
    { st with backup := some (db.habits, db.habitEntries, db.settings) }
  let r := migrations.foldl (migrationStep now) (st1, 0, [])
  { state := r.1, success := r.2.2 = [], applied := r.2.1, errors := r.2.2 }

/-! ### Derived views and concrete sample data -/

/-- The record the last-write-wins rule keeps for key `key r` when
remote record `r` meets a store: `r` itself when the store has nothing
under that key or the stored record is not newer, else the stored
record. -/
def lwwWinner {α : Type} (key : α → String) (upd : α → Nat)
    (store : List α) (r : α) : Option α :=
  match storeGet key store (key r) with
  | none => some r
  | some l => if upd l ≤ upd r then some r else some l

/-- The retry-ceiling error messages the partition loop pushes, one per
queue item whose `retryCount` exceeds 5, in queue order. -/
def queueErrors (q : List SyncQueueItem) : List String :=
  q.filterMap (fun it =>
    if it.retryCount > 5 then
      some ("Item " ++ it.id ++ " exceeded max retries")
    else none)

/-- The payloads the partition loop collects for table `t` and operation
kind `o`, in queue order: exactly the items under the retry ceiling with
that table and operation. -/
def queueBatch (t : Table) (o : SyncOp) (q : List SyncQueueItem) : List QueueData :=
  q.filterMap (fun it =>
    if it.retryCount ≤ 5 ∧ it.table = t ∧ it.operation = o then
      some it.data
    else none)

/-- A local habit owned by `u`, last modified at time 5. -/
def sampleHabitLocal : Habit :=
  { id := "h1", user_id := "u", name := "Run", icon := "*", color := "#fff",
    order_index := 0, is_two_step := false, created_at := 1, updated_at := 5,
    schema_version := 1 }

/-- A remote copy of the same habit, last modified at time 9. -/
def sampleHabitRemote : Habit :=
  { sampleHabitLocal with name := "Jog", updated_at := 9 }

/-- A habit record owned by `v`, used to exercise owner isolation at a
concrete input. -/
def foreignHabit : Habit :=
  { id := "h9", user_id := "v", name := "Read", icon := "*", color := "#000",
    order_index := 0, is_two_step := false, created_at := 1, updated_at := 2,
    schema_version := 1 }

/-- A habit record owned by `B`. -/
def sampleHabitB : Habit :=
  { sampleHabitLocal with id := "hB", user_id := "B" }

/-- An entry of habit `h1`, owner `u`, stored locally. -/
def sampleEntry : HabitEntry := mkEntry "u" "h1" "2024-01-01" ⟨1, none, none⟩ 3

/-- A queued habits upsert of owner `u`, enqueued at time 1. -/
def qHabitUpsert : SyncQueueItem :=
  { id := "habits:h1:1", table := .habits, operation := .upsert,
    data := .habitData sampleHabitLocal, timestamp := 1, retryCount := 0 }

/-- A queued entries upsert of owner `u`, enqueued at time 2. -/
def qEntryUpsert : SyncQueueItem :=
  { id := "habit_entries:u:h1:2024-01-01:2", table := .habit_entries,
    operation := .upsert,
    data := .entryData (mkEntry "u" "h1" "2024-01-01" ⟨1, none, none⟩ 2),
    timestamp := 2, retryCount := 0 }

/-- A queued habits delete of record `h1`, enqueued at time 0 — before
`qHabitUpsert` (time 1) targeting the same record. -/
def qHabitDelete : SyncQueueItem :=
  { id := "habits:h1:0", table := .habits, operation := .delete,
    data := .delData "h1" "u", timestamp := 0, retryCount := 0 }

/-- A queued entries upsert of owner `A`, enqueued at time 1. -/
def qEntryUpsertA : SyncQueueItem :=
  { id := "habit_entries:A:h1:2024-01-01:1", table := .habit_entries,
    operation := .upsert,
    data := .entryData (mkEntry "A" "h1" "2024-01-01" ⟨1, none, none⟩ 1),
    timestamp := 1, retryCount := 0 }

/-- A queued habits upsert of owner `B`, enqueued at time 2. -/
def qHabitUpsertB : SyncQueueItem :=
  { id := "habits:hB:2", table := .habits, operation := .upsert,
    data := .habitData sampleHabitB, timestamp := 2, retryCount := 0 }

/-- A remote store whose four batched calls all fail. -/
def alwaysFail : Remote := ⟨some "down", some "down", some "down", some "down"⟩

/-- The local state after one drain cycle against `alwaysFail`. -/
def failStep (d : DB) : DB := (performSync d alwaysFail 99).db

/-- A migration whose forward transform throws. -/
def migV2fail : Migration := ⟨2, "m2", .error "boom"⟩

/-- A later migration whose forward transform succeeds. -/
def migV3ok : Migration := ⟨3, "m3", .ok ()⟩

/-! ### Lemmas about the object-store primitives -/

section StoreLemmas

variable {α : Type} (key : α → String)

theorem replace_comp_self (r : α) :
    ((fun x => key x == key r) ∘ (fun x => if key x == key r then r else x)) =
      (fun x => key x == key r) := by
  funext x
  by_cases hx : (key x == key r) = true
  · have hxr : key x = key r := by simpa using hx
    simp [hxr]
  · have hxr : ¬key x = key r := by simpa using hx
    simp [hxr]

theorem replace_comp_other (r : α) (k : String) (hk : k ≠ key r) :
    ((fun x => key x == k) ∘ (fun x => if key x == key r then r else x)) =
      (fun x => key x == k) := by
  funext x
  by_cases hx : (key x == key r) = true
  · have hxr : key x = key r := by simpa using hx
    have h1 : ¬key r = k := fun e => hk e.symm
    simp [hxr, h1]
  · have hxr : ¬key x = key r := by simpa using hx
    simp [hxr]

theorem storeGet_storePut_self (r : α) (l : List α) :
    storeGet key (storePut key l r) (key r) = some r := by
  unfold storeGet storePut
  by_cases h : l.any (fun x => key x == key r) = true
  · simp only [h, if_true]
    rw [List.find?_map, replace_comp_self]
    have hsome : (l.find? (fun x => key x == key r)).isSome := by
      rw [List.find?_isSome]
      simpa using List.any_eq_true.mp h
    obtain ⟨y, hy⟩ := Option.isSome_iff_exists.mp hsome
    rw [hy]
    have hp : key y = key r := by simpa using List.find?_some hy
    simp [hp]
  · simp only [Bool.not_eq_true] at h
    simp only [h, Bool.false_eq_true, if_false]
    rw [List.find?_append]
    have hnone : l.find? (fun x => key x == key r) = none := by
      rw [List.find?_eq_none]
      intro x hx
      exact fun hpx => (List.any_eq_false.mp h x hx) hpx
    simp [hnone]

theorem storeGet_storePut_ne (r : α) (l : List α) (k : String) (hk : k ≠ key r) :
    storeGet key (storePut key l r) k = storeGet key l k := by
  unfold storeGet storePut
  by_cases h : l.any (fun x => key x == key r) = true
  · simp only [h, if_true]
    rw [List.find?_map, replace_comp_other key r k hk]
    cases hfind : l.find? (fun x => key x == k) with
    | none => simp
    | some y =>
      have hyk : key y = k := by simpa using List.find?_some hfind
      have hyr : ¬key y = key r := by
        rw [hyk]
        exact hk
      simp [hyr]
  · simp only [Bool.not_eq_true] at h
    simp only [h, Bool.false_eq_true, if_false]
    rw [List.find?_append]
    have h1 : (key r == k) = false := by
      simp only [beq_eq_false_iff_ne, ne_eq]
      exact fun e => hk e.symm
    simp [List.find?, h1]

theorem mem_storePut_of_key_ne (r x : α) (l : List α)
    (hx : x ∈ l) (hne : key x ≠ key r) : x ∈ storePut key l r := by
  unfold storePut
  by_cases h : l.any (fun y => key y == key r) = true
  · simp only [h, if_true]
    have hxx : x = (fun y => if key y == key r then r else y) x := by
      have hb : (key x == key r) = false := by simpa using hne
      simp [hb]
    rw [hxx]
    exact List.mem_map_of_mem _ hx
  · simp only [Bool.not_eq_true] at h
    simp only [h, Bool.false_eq_true, if_false]
    exact List.mem_append_left _ hx

theorem countP_storePut (r : α) (l : List α)
    (h : l.countP (fun x => key x == key r) ≤ 1) :
    (storePut key l r).countP (fun x => key x == key r) = 1 := by
  unfold storePut
  by_cases hany : l.any (fun x => key x == key r) = true
  · simp only [hany, if_true]
    rw [List.countP_map, replace_comp_self]
    have hpos : 0 < l.countP (fun x => key x == key r) := by
      rcases List.any_eq_true.mp hany with ⟨x, hxl, hx⟩
      exact List.countP_pos_iff.mpr ⟨x, hxl, hx⟩
    omega
  · simp only [Bool.not_eq_true] at hany
    simp only [hany, Bool.false_eq_true, if_false]
    have h0 : l.countP (fun x => key x == key r) = 0 := by
      apply List.countP_eq_zero.mpr
      intro x hxl
      exact List.any_eq_false.mp hany x hxl
    simp [List.countP_append, h0, List.countP_cons]

end StoreLemmas

/-! ### Claim C7 -/

/-- Claim C7: for every owner `U`, habit `H`, date `D` and payloads `p1`
then `p2`, two successive `saveHabitEntry(U, H, D, _)` calls leave
exactly one stored entry for the key `U:H:D` — the second call
overwrites the first — and that entry's fields equal `p2`.  The
hypothesis is the IndexedDB key-uniqueness invariant (at most one record
per key). -/
theorem c7_idempotent_entry_keying (db : DB) (u h d : String)
    (p1 p2 : EntryData) (t1 t2 : Nat)
    (hone : db.habitEntries.countP
      (fun e => e.id == generateEntryId u h d) ≤ 1) :
    ((saveHabitEntry (saveHabitEntry db u h d p1 t1) u h d p2 t2).habitEntries.countP
      (fun e => e.id == generateEntryId u h d) = 1) ∧
    storeGet HabitEntry.id
      (saveHabitEntry (saveHabitEntry db u h d p1 t1) u h d p2 t2).habitEntries
      (generateEntryId u h d) =
      some { id := generateEntryId u h d, user_id := u, habit_id := h,
             date := d, value := p2.value, fasting_hours := p2.fasting_hours,
             note := p2.note, updated_at := t2 } := by
  have hid1 : HabitEntry.id (mkEntry u h d p1 t1) = generateEntryId u h d := rfl
  have hid2 : HabitEntry.id (mkEntry u h d p2 t2) = generateEntryId u h d := rfl
  have hstep1 : (saveHabitEntry db u h d p1 t1).habitEntries =
      storePut HabitEntry.id db.habitEntries (mkEntry u h d p1 t1) := rfl
  have hstep2 : (saveHabitEntry (saveHabitEntry db u h d p1 t1) u h d p2 t2).habitEntries =
      storePut HabitEntry.id (saveHabitEntry db u h d p1 t1).habitEntries
        (mkEntry u h d p2 t2) := rfl
  have hcount1 : (saveHabitEntry db u h d p1 t1).habitEntries.countP
      (fun e => e.id == generateEntryId u h d) = 1 := by
    rw [hstep1]
    have := countP_storePut HabitEntry.id (mkEntry u h d p1 t1) db.habitEntries
      (by simpa [hid1] using hone)
    simpa [hid1] using this
  constructor
  · rw [hstep2]
    have := countP_storePut HabitEntry.id (mkEntry u h d p2 t2)
      (saveHabitEntry db u h d p1 t1).habitEntries
      (by simp [hid2]; omega)
    simpa [hid2] using this
  · rw [hstep2]
    have := storeGet_storePut_self HabitEntry.id (mkEntry u h d p2 t2)
      (saveHabitEntry db u h d p1 t1).habitEntries
    simpa [hid2] using this

/-- Witness for C7 at the spec's concrete scenario: owner `u`, habit
`h1`, date `2024-01-01`, value `1` then value `2`, starting from an
empty store. -/
theorem c7_idempotent_entry_keying_witness :
    ((⟨[], [], [], []⟩ : DB).habitEntries.countP
      (fun e => e.id == generateEntryId "u" "h1" "2024-01-01") ≤ 1) ∧
    (((saveHabitEntry (saveHabitEntry ⟨[], [], [], []⟩ "u" "h1" "2024-01-01"
        ⟨1, none, none⟩ 10) "u" "h1" "2024-01-01" ⟨2, none, none⟩ 20).habitEntries.countP
      (fun e => e.id == generateEntryId "u" "h1" "2024-01-01") = 1) ∧
    storeGet HabitEntry.id
      (saveHabitEntry (saveHabitEntry ⟨[], [], [], []⟩ "u" "h1" "2024-01-01"
        ⟨1, none, none⟩ 10) "u" "h1" "2024-01-01" ⟨2, none, none⟩ 20).habitEntries
      (generateEntryId "u" "h1" "2024-01-01") =
      some { id := generateEntryId "u" "h1" "2024-01-01", user_id := "u",
             habit_id := "h1", date := "2024-01-01", value := (2 : Int),
             fasting_hours := none, note := none, updated_at := 20 }) :=
  ⟨by decide,
   c7_idempotent_entry_keying ⟨[], [], [], []⟩ "u" "h1" "2024-01-01"
     ⟨1, none, none⟩ ⟨2, none, none⟩ 10 20 (by decide)⟩

/-! ### Lemmas about the pull merge -/

section LwwLemmas

variable {α : Type} (key : α → String) (upd : α → Nat)

theorem lwwPut_outcome (store : List α) (r : α) :
    storeGet key (lwwPut key upd store r) (key r) = lwwWinner key upd store r := by
  unfold lwwPut lwwWinner
  cases h : storeGet key store (key r) with
  | none => exact storeGet_storePut_self key r store
  | some l =>
    by_cases hle : upd l ≤ upd r
    · simp only [hle, if_true]
      exact storeGet_storePut_self key r store
    · simp only [hle, if_false]
      exact h

theorem lwwPut_frame (store : List α) (r : α) (k : String) (hk : k ≠ key r) :
    storeGet key (lwwPut key upd store r) k = storeGet key store k := by
  unfold lwwPut
  cases storeGet key store (key r) with
  | none => exact storeGet_storePut_ne key r store k hk
  | some l =>
    by_cases hle : upd l ≤ upd r
    · simp only [hle, if_true]
      exact storeGet_storePut_ne key r store k hk
    · simp [hle]

theorem foldl_lwwPut_frame (rs : List α) (store : List α) (k : String)
    (h : ∀ x ∈ rs, key x ≠ k) :
    storeGet key (rs.foldl (lwwPut key upd) store) k = storeGet key store k := by
  induction rs generalizing store with
  | nil => rfl
  | cons x xs ih =>
    rw [List.foldl_cons]
    rw [ih (lwwPut key upd store x) (fun y hy => h y (List.mem_cons_of_mem x hy))]
    exact lwwPut_frame key upd store x k
      (fun e => h x (List.mem_cons_self x xs) e.symm)

theorem foldl_lwwPut_outcome (rs : List α) (store : List α) (r : α)
    (hr : r ∈ rs) (hnd : (rs.map key).Nodup) :
    storeGet key (rs.foldl (lwwPut key upd) store) (key r) =
      lwwWinner key upd store r := by
  induction rs generalizing store with
  | nil => cases hr
  | cons x xs ih =>
    rw [List.map_cons, List.nodup_cons] at hnd
    rcases List.mem_cons.mp hr with rfl | hmem
    · rw [List.foldl_cons]
      rw [foldl_lwwPut_frame key upd xs (lwwPut key upd store r) (key r)
        (fun y hy e => hnd.1 (e ▸ List.mem_map_of_mem key hy))]
      exact lwwPut_outcome key upd store r
    · rw [List.foldl_cons]
      rw [ih (lwwPut key upd store x) hmem hnd.2]
      have hne : key r ≠ key x := by
        intro e
        exact hnd.1 (e ▸ List.mem_map_of_mem key hmem)
      unfold lwwWinner
      rw [lwwPut_frame key upd store x (key r) hne]

end LwwLemmas

/-! ### Claim C2 -/

/-- Claim C2: for every remote record `r` processed by the merge phase
of `pullFromServer` (remote result sets carry each row at most once, so
their key lists are duplicate-free), the locally stored record under
`r`'s identifier afterwards is the whole remote record when no local
record existed or the remote `updated_at` is greater than or equal to
the local one, and is the unchanged local record otherwise; records
whose identifier is pulled in no remote row are untouched, so each
decision is per-record. -/
theorem c2_last_write_wins (db : DB) (u : String) (rh : List Habit)
    (re : List HabitEntry) (now : Nat)
    (hndh : (rh.map Habit.id).Nodup) (hnde : (re.map HabitEntry.id).Nodup) :
    (∀ r ∈ rh,
      storeGet Habit.id (pullMerge db u rh re now).habits r.id =
        lwwWinner Habit.id Habit.updated_at db.habits r) ∧
    (∀ r ∈ re,
      storeGet HabitEntry.id (pullMerge db u rh re now).habitEntries r.id =
        lwwWinner HabitEntry.id HabitEntry.updated_at db.habitEntries r) ∧
    (∀ k, (∀ r ∈ rh, Habit.id r ≠ k) →
      storeGet Habit.id (pullMerge db u rh re now).habits k =
        storeGet Habit.id db.habits k) ∧
    (∀ k, (∀ r ∈ re, HabitEntry.id r ≠ k) →
      storeGet HabitEntry.id (pullMerge db u rh re now).habitEntries k =
        storeGet HabitEntry.id db.habitEntries k) := by
  have hhab : (pullMerge db u rh re now).habits =
      rh.foldl (lwwPut Habit.id Habit.updated_at) db.habits := by
    simp [pullMerge, saveSettings, mergeHabitRecord]
  have hent : (pullMerge db u rh re now).habitEntries =
      re.foldl (lwwPut HabitEntry.id HabitEntry.updated_at) db.habitEntries := by
    simp [pullMerge, saveSettings, mergeEntryRecord]
  refine ⟨?_, ?_, ?_, ?_⟩
  · intro r hr
    rw [hhab]
    exact foldl_lwwPut_outcome Habit.id Habit.updated_at rh db.habits r hr hndh
  · intro r hr
    rw [hent]
    exact foldl_lwwPut_outcome HabitEntry.id HabitEntry.updated_at re
      db.habitEntries r hr hnde
  · intro k hk
    rw [hhab]
    exact foldl_lwwPut_frame Habit.id Habit.updated_at rh db.habits k hk
  · intro k hk
    rw [hent]
    exact foldl_lwwPut_frame HabitEntry.id HabitEntry.updated_at re
      db.habitEntries k hk

/-- Witness for C2: a local habit with `updated_at = 5` meets its remote
copy with `updated_at = 9`; after the merge the stored record is the
whole remote copy. -/
theorem c2_last_write_wins_witness :
    (([sampleHabitRemote].map Habit.id).Nodup ∧
      (([] : List HabitEntry).map HabitEntry.id).Nodup) ∧
    storeGet Habit.id
      (pullMerge ⟨[sampleHabitLocal], [], [], []⟩ "u" [sampleHabitRemote] [] 100).habits
      sampleHabitRemote.id = some sampleHabitRemote := by
  refine ⟨⟨by decide, by decide⟩, ?_⟩
  have h := (c2_last_write_wins ⟨[sampleHabitLocal], [], [], []⟩ "u"
    [sampleHabitRemote] [] 100 (by decide) (by decide)).1
    sampleHabitRemote (by simp)
  rw [h]
  decide

/-! ### Lemmas about key-unique stores -/

theorem eq_of_keysNodup {α : Type} (key : α → String) {l : List α} {x y : α}
    (hnd : keysNodup key l) (hx : x ∈ l) (hy : y ∈ l) (hk : key x = key y) :
    x = y := by
  induction l with
  | nil => cases hx
  | cons a as ih =>
    rw [keysNodup, List.map_cons, List.nodup_cons] at hnd
    rcases List.mem_cons.mp hx with rfl | hx'
    · rcases List.mem_cons.mp hy with rfl | hy'
      · rfl
      · exact absurd (hk ▸ List.mem_map_of_mem key hy') hnd.1
    · rcases List.mem_cons.mp hy with rfl | hy'
      · exact absurd (hk ▸ List.mem_map_of_mem key hx') hnd.1
      · exact ih hnd.2 hx' hy'

theorem keys_storePut_of_any {α : Type} (key : α → String) (l : List α) (r : α)
    (h : l.any (fun x => key x == key r) = true) :
    (storePut key l r).map key = l.map key := by
  unfold storePut
  simp only [h, if_true, List.map_map]
  apply List.map_congr_left
  intro x _
  by_cases hx : (key x == key r) = true
  · have : key x = key r := by simpa using hx
    simp [Function.comp, hx, this]
  · simp [Function.comp, hx]

theorem keysNodup_storePut_of_mem {α : Type} (key : α → String) (l : List α)
    (r : α) (h : l.any (fun x => key x == key r) = true)
    (hnd : keysNodup key l) : keysNodup key (storePut key l r) := by
  rw [keysNodup, keys_storePut_of_any key l r h]
  exact hnd

theorem any_of_storeGet_some {α : Type} (key : α → String) {l : List α}
    {k : String} {x : α} (h : storeGet key l k = some x) :
    l.any (fun y => key y == key x) = true := by
  have hmem : x ∈ l := List.mem_of_find?_eq_some h
  exact List.any_eq_true.mpr ⟨x, hmem, by simp⟩

theorem storeGet_key_eq {α : Type} (key : α → String) {l : List α}
    {k : String} {x : α} (h : storeGet key l k = some x) : key x = k := by
  simpa using List.find?_some h

theorem mem_storeErase {α : Type} (key : α → String) {l : List α} {x : α}
    (k : String) (hx : x ∈ l) (hne : key x ≠ k) : x ∈ storeErase key l k := by
  refine List.mem_filter.mpr ⟨hx, ?_⟩
  simpa using hne

/-- One `reorderHabits` loop iteration leaves a foreign record in place,
keeps the keys duplicate-free, and appends at most one queue item, which
then carries the calling owner's `user_id`. -/
theorem reorderStep_foreign (u : String) (now : Nat) (db : DB)
    (p : Nat × String) (x : Habit)
    (hnd : keysNodup Habit.id db.habits) (hx : x ∈ db.habits)
    (hu : x.user_id ≠ u) :
    x ∈ (reorderStep u now db p).habits ∧
    keysNodup Habit.id (reorderStep u now db p).habits ∧
    ((reorderStep u now db p).syncQueue = db.syncQueue ∨
      ∃ it, (reorderStep u now db p).syncQueue = db.syncQueue ++ [it] ∧
        it.data.dataUserId = u) := by
  unfold reorderStep
  cases hget : storeGet Habit.id db.habits p.2 with
  | none => exact ⟨hx, hnd, Or.inl rfl⟩
  | some h =>
    by_cases hub : (h.user_id == u) = true
    · have hhu : h.user_id = u := by simpa using hub
      have hhmem : h ∈ db.habits := List.mem_of_find?_eq_some hget
      have hhid : h.id = p.2 := storeGet_key_eq Habit.id hget
      have hxne : x.id ≠ h.id := by
        intro e
        exact hu (by rw [eq_of_keysNodup Habit.id hnd hx hhmem e]; exact hhu)
      simp only [hub, if_true]
      set habit1 : Habit := { h with order_index := Int.ofNat p.1, updated_at := now }
      have hkey1 : Habit.id habit1 = h.id := rfl
      have hany : db.habits.any (fun y => Habit.id y == Habit.id habit1) = true := by
        rw [hkey1]
        exact List.any_eq_true.mpr ⟨h, hhmem, by simp⟩
      refine ⟨?_, ?_, ?_⟩
      · exact mem_storePut_of_key_ne Habit.id habit1 x db.habits hx
          (by rw [hkey1]; exact hxne)
      · exact keysNodup_storePut_of_mem Habit.id db.habits habit1 hany hnd
      · refine Or.inr ⟨_, rfl, ?_⟩
        simpa [QueueData.dataUserId] using hhu
    · simp only [hub, Bool.false_eq_true, if_false]
      exact ⟨hx, hnd, Or.inl (by trivial)⟩

/-- One `reorderHabits` loop iteration appends at most one queue item,
and any appended item carries the calling owner's `user_id`. -/
theorem reorderStep_queue (u : String) (now : Nat) (db : DB) (p : Nat × String) :
    (reorderStep u now db p).syncQueue = db.syncQueue ∨
      ∃ it, (reorderStep u now db p).syncQueue = db.syncQueue ++ [it] ∧
        it.data.dataUserId = u := by
  unfold reorderStep
  cases storeGet Habit.id db.habits p.2 with
  | none => exact Or.inl rfl
  | some h =>
    by_cases hub : (h.user_id == u) = true
    · have hhu : h.user_id = u := by simpa using hub
      simp only [hub, if_true]
      exact Or.inr ⟨_, rfl, by simpa [QueueData.dataUserId] using hhu⟩
    · simp only [hub, Bool.false_eq_true, if_false]
      exact Or.inl (by trivial)

/-- Queue half of the `reorderHabits` fold invariant: every item of the
resulting queue was already queued or belongs to the calling owner. -/
theorem reorder_foldl_queue (u : String) (now : Nat)
    (ps : List (Nat × String)) (db : DB) (q0 : List SyncQueueItem)
    (hq : ∀ it ∈ db.syncQueue, it ∈ q0 ∨ it.data.dataUserId = u) :
    ∀ it ∈ (ps.foldl (reorderStep u now) db).syncQueue,
      it ∈ q0 ∨ it.data.dataUserId = u := by
  induction ps generalizing db with
  | nil => exact hq
  | cons p ps ih =>
    rw [List.foldl_cons]
    refine ih (reorderStep u now db p) ?_
    rcases reorderStep_queue u now db p with heq | ⟨it, heq, hit⟩
    · rw [heq]; exact hq
    · rw [heq]
      intro j hj
      rcases List.mem_append.mp hj with hj1 | hj2
      · exact hq j hj1
      · rcases List.mem_singleton.mp hj2 with rfl
        exact Or.inr hit

/-- The `reorderHabits` fold preserves the foreign-record and queue
invariants of `reorderStep_foreign`. -/
theorem reorder_foldl_foreign (u : String) (now : Nat)
    (ps : List (Nat × String)) (db : DB) (x : Habit)
    (q0 : List SyncQueueItem)
    (hnd : keysNodup Habit.id db.habits) (hx : x ∈ db.habits)
    (hu : x.user_id ≠ u)
    (hq : ∀ it ∈ db.syncQueue, it ∈ q0 ∨ it.data.dataUserId = u) :
    x ∈ (ps.foldl (reorderStep u now) db).habits ∧
    keysNodup Habit.id (ps.foldl (reorderStep u now) db).habits ∧
    (∀ it ∈ (ps.foldl (reorderStep u now) db).syncQueue,
      it ∈ q0 ∨ it.data.dataUserId = u) := by
  induction ps generalizing db with
  | nil => exact ⟨hx, hnd, hq⟩
  | cons p ps ih =>
    rw [List.foldl_cons]
    obtain ⟨hx1, hnd1, hq1⟩ := reorderStep_foreign u now db p x hnd hx hu
    refine ih (reorderStep u now db p) hnd1 hx1 ?_
    rcases hq1 with heq | ⟨it, heq, hit⟩
    · rw [heq]; exact hq
    · rw [heq]
      intro j hj
      rcases List.mem_append.mp hj with hj1 | hj2
      · exact hq j hj1
      · rcases List.mem_singleton.mp hj2 with rfl
        exact Or.inr hit

/-! ### Claim C9 -/

/-- Claim C9: owner isolation of the local store.  A lookup never
returns another owner's record; a delete whose fetched record belongs to
another owner is a complete no-op; and under the IndexedDB
key-uniqueness invariant, `deleteHabit`, `deleteHabitEntry` and
`reorderHabits` keep every record of another owner untouched and enqueue
operations only for records of the calling owner. -/
theorem c9_owner_isolation :
    (∀ (db : DB) (u hid : String) (h : Habit),
      getHabit db u hid = some h → h.user_id = u) ∧
    (∀ (db : DB) (u hid d : String) (e : HabitEntry),
      getHabitEntry db u hid d = some e → e.user_id = u) ∧
    (∀ (db : DB) (u hid : String) (now : Nat) (h : Habit),
      storeGet Habit.id db.habits hid = some h → h.user_id ≠ u →
      deleteHabit db u hid now = db) ∧
    (∀ (db : DB) (u hid d : String) (now : Nat) (e : HabitEntry),
      storeGet HabitEntry.id db.habitEntries (generateEntryId u hid d) = some e →
      e.user_id ≠ u → deleteHabitEntry db u hid d now = db) ∧
    (∀ (db : DB) (u hid : String) (now : Nat) (x : Habit),
      keysNodup Habit.id db.habits → x ∈ db.habits → x.user_id ≠ u →
      x ∈ (deleteHabit db u hid now).habits) ∧
    (∀ (db : DB) (u hid d : String) (now : Nat) (x : HabitEntry),
      keysNodup HabitEntry.id db.habitEntries → x ∈ db.habitEntries →
      x.user_id ≠ u → x ∈ (deleteHabitEntry db u hid d now).habitEntries) ∧
    (∀ (db : DB) (u : String) (ids : List String) (now : Nat) (x : Habit),
      keysNodup Habit.id db.habits → x ∈ db.habits → x.user_id ≠ u →
      x ∈ (reorderHabits db u ids now).habits) ∧
    (∀ (db : DB) (u hid : String) (now : Nat) (it : SyncQueueItem),
      it ∈ (deleteHabit db u hid now).syncQueue →
      it ∈ db.syncQueue ∨ it.data.dataUserId = u) ∧
    (∀ (db : DB) (u hid d : String) (now : Nat) (it : SyncQueueItem),
      it ∈ (deleteHabitEntry db u hid d now).syncQueue →
      it ∈ db.syncQueue ∨ it.data.dataUserId = u) ∧
    (∀ (db : DB) (u : String) (ids : List String) (now : Nat) (it : SyncQueueItem),
      it ∈ (reorderHabits db u ids now).syncQueue →
      it ∈ db.syncQueue ∨ it.data.dataUserId = u) := by
  refine ⟨?_, ?_, ?_, ?_, ?_, ?_, ?_, ?_, ?_, ?_⟩
  · intro db u hid h hg
    unfold getHabit at hg
    cases hget : storeGet Habit.id db.habits hid with
    | none => rw [hget] at hg; cases hg
    | some hb =>
      rw [hget] at hg
      by_cases hub : (hb.user_id == u) = true
      · simp only [hub, if_true, Option.some.injEq] at hg
        rw [← hg]
        simpa using hub
      · simp only [hub, Bool.false_eq_true, if_false] at hg
        cases hg
  · intro db u hid d e hg
    unfold getHabitEntry at hg
    cases hget : storeGet HabitEntry.id db.habitEntries (generateEntryId u hid d) with
    | none => rw [hget] at hg; cases hg
    | some eb =>
      rw [hget] at hg
      by_cases hub : (eb.user_id == u) = true
      · simp only [hub, if_true, Option.some.injEq] at hg
        rw [← hg]
        simpa using hub
      · simp only [hub, Bool.false_eq_true, if_false] at hg
        cases hg
  · intro db u hid now h hget hne
    unfold deleteHabit
    rw [hget]
    have hub : (h.user_id == u) = false := by simpa using hne
    simp [hub]
  · intro db u hid d now e hget hne
    unfold deleteHabitEntry
    rw [hget]
    have hub : (e.user_id == u) = false := by simpa using hne
    simp [hub]
  · intro db u hid now x hnd hx hu
    unfold deleteHabit
    cases hget : storeGet Habit.id db.habits hid with
    | none => exact hx
    | some h =>
      by_cases hub : (h.user_id == u) = true
      · have hhu : h.user_id = u := by simpa using hub
        have hhmem : h ∈ db.habits := List.mem_of_find?_eq_some hget
        have hhid : h.id = hid := storeGet_key_eq Habit.id hget
        simp only [hub, if_true]
        refine mem_storeErase Habit.id hid hx ?_
        intro e
        exact hu (by
          rw [eq_of_keysNodup Habit.id hnd hx hhmem (e.trans hhid.symm)]
          exact hhu)
      · simp only [hub, Bool.false_eq_true, if_false]
        exact hx
  · intro db u hid d now x hnd hx hu
    unfold deleteHabitEntry
    cases hget : storeGet HabitEntry.id db.habitEntries (generateEntryId u hid d) with
    | none => exact hx
    | some e =>
      by_cases hub : (e.user_id == u) = true
      · have heu : e.user_id = u := by simpa using hub
        have hemem : e ∈ db.habitEntries := List.mem_of_find?_eq_some hget
        have heid : e.id = generateEntryId u hid d := storeGet_key_eq HabitEntry.id hget
        simp only [hub, if_true]
        refine mem_storeErase HabitEntry.id (generateEntryId u hid d) hx ?_
        intro he
        exact hu (by
          rw [eq_of_keysNodup HabitEntry.id hnd hx hemem (he.trans heid.symm)]
          exact heu)
      · simp only [hub, Bool.false_eq_true, if_false]
        exact hx
  · intro db u ids now x hnd hx hu
    exact (reorder_foldl_foreign u now ids.enum db x db.syncQueue hnd hx hu
      (fun it hit => Or.inl hit)).1
  · intro db u hid now it hit
    unfold deleteHabit at hit
    cases hget : storeGet Habit.id db.habits hid with
    | none => rw [hget] at hit; exact Or.inl hit
    | some h =>
      rw [hget] at hit
      by_cases hub : (h.user_id == u) = true
      · simp only [hub, if_true, queueForSync] at hit
        rcases List.mem_append.mp hit with h1 | h2
        · exact Or.inl h1
        · rcases List.mem_singleton.mp h2 with rfl
          exact Or.inr rfl
      · simp only [hub, Bool.false_eq_true, if_false] at hit
        exact Or.inl hit
  · intro db u hid d now it hit
    unfold deleteHabitEntry at hit
    cases hget : storeGet HabitEntry.id db.habitEntries (generateEntryId u hid d) with
    | none => rw [hget] at hit; exact Or.inl hit
    | some e =>
      rw [hget] at hit
      by_cases hub : (e.user_id == u) = true
      · simp only [hub, if_true, queueForSync] at hit
        rcases List.mem_append.mp hit with h1 | h2
        · exact Or.inl h1
        · rcases List.mem_singleton.mp h2 with rfl
          exact Or.inr rfl
      · simp only [hub, Bool.false_eq_true, if_false] at hit
        exact Or.inl hit
  · intro db u ids now it hit
    exact reorder_foldl_queue u now ids.enum db db.syncQueue
      (fun j hj => Or.inl hj) it hit

/-- Witness for C9: `deleteHabit` called by `u` on a habit stored for
owner `v` changes nothing. -/
theorem c9_owner_isolation_witness :
    (storeGet Habit.id (⟨[foreignHabit], [], [], []⟩ : DB).habits "h9" =
        some foreignHabit ∧ foreignHabit.user_id ≠ "u") ∧
    deleteHabit ⟨[foreignHabit], [], [], []⟩ "u" "h9" 7 =
      ⟨[foreignHabit], [], [], []⟩ :=
  ⟨⟨by decide, by decide⟩,
   c9_owner_isolation.2.2.1 ⟨[foreignHabit], [], [], []⟩ "u" "h9" 7 foreignHabit
     (by decide) (by decide)⟩

/-! ### Characterising the drain partition -/

theorem foldl_partitionStep_eq (q : List SyncQueueItem) (p0 : Partition) :
    q.foldl partitionStep p0 =
      ⟨p0.errors ++ queueErrors q,
       p0.habitsToUpsert ++ queueBatch .habits .upsert q,
       p0.habitsToDelete ++ (queueBatch .habits .delete q).map QueueData.dataId,
       p0.entriesToUpsert ++ queueBatch .habit_entries .upsert q,
       p0.entriesToDelete ++ (queueBatch .habit_entries .delete q).map QueueData.dataId⟩ := by
  induction q generalizing p0 with
  | nil =>
    cases p0
    simp [queueErrors, queueBatch]
  | cons it q ih =>
    rw [List.foldl_cons, ih]
    by_cases h5 : it.retryCount > 5
    · have h5' : ¬it.retryCount ≤ 5 := by omega
      simp [partitionStep, h5, h5', queueErrors, queueBatch, List.filterMap_cons]
    · have h5' : it.retryCount ≤ 5 := by omega
      cases ht : it.table <;> cases ho : it.operation <;>
        simp [partitionStep, h5, h5', ht, ho, queueErrors, queueBatch,
          List.filterMap_cons]

theorem partitionQueue_eq (q : List SyncQueueItem) :
    partitionQueue q =
      ⟨queueErrors q,
       queueBatch .habits .upsert q,
       (queueBatch .habits .delete q).map QueueData.dataId,
       queueBatch .habit_entries .upsert q,
       (queueBatch .habit_entries .delete q).map QueueData.dataId⟩ := by
  unfold partitionQueue
  rw [foldl_partitionStep_eq]
  simp

/-! ### Structural lemmas about `performSync` -/

theorem performSync_empty (db : DB) (remote : Remote) (now : Nat)
    (h : db.syncQueue = []) :
    performSync db remote now = ⟨db, true, [], []⟩ := by
  obtain ⟨hb, he, st, q⟩ := db
  cases q with
  | nil => rfl
  | cons a l => exact absurd h (by simp)

theorem performSync_errors_eq (db : DB) (remote : Remote) (now : Nat)
    (h : db.syncQueue ≠ []) :
    (performSync db remote now).errors =
      (partitionQueue db.syncQueue).errors ++
        batchErrors (partitionQueue db.syncQueue) remote := by
  obtain ⟨hb, he, st, q⟩ := db
  cases q with
  | nil => exact absurd rfl h
  | cons a l => rfl

theorem performSync_sent_eq (db : DB) (remote : Remote) (now : Nat)
    (h : db.syncQueue ≠ []) :
    (performSync db remote now).sent = sentBatches (partitionQueue db.syncQueue) := by
  obtain ⟨hb, he, st, q⟩ := db
  cases q with
  | nil => exact absurd rfl h
  | cons a l => rfl

theorem performSync_db_eq (db : DB) (remote : Remote) (now : Nat)
    (h : db.syncQueue ≠ []) :
    (performSync db remote now).db =
      (match lastSyncUser (partitionQueue db.syncQueue) with
       | some userId =>
         saveSettings
           { db with syncQueue :=
               if (partitionQueue db.syncQueue).errors ++
                   batchErrors (partitionQueue db.syncQueue) remote = [] then []
               else db.syncQueue.map bumpRetry }
           userId ⟨none, some now⟩
       | none =>
         { db with syncQueue :=
             if (partitionQueue db.syncQueue).errors ++
                 batchErrors (partitionQueue db.syncQueue) remote = [] then []
             else db.syncQueue.map bumpRetry }) := by
  obtain ⟨hb, he, st, q⟩ := db
  cases q with
  | nil => exact absurd rfl h
  | cons a l => rfl

theorem saveSettings_syncQueue (db : DB) (u : String) (p : SettingsPatch) :
    (saveSettings db u p).syncQueue = db.syncQueue := rfl

theorem saveSettings_habits (db : DB) (u : String) (p : SettingsPatch) :
    (saveSettings db u p).habits = db.habits := rfl

theorem performSync_syncQueue_eq (db : DB) (remote : Remote) (now : Nat)
    (h : db.syncQueue ≠ []) :
    (performSync db remote now).db.syncQueue =
      if (performSync db remote now).errors = [] then []
      else db.syncQueue.map bumpRetry := by
  rw [performSync_db_eq db remote now h, performSync_errors_eq db remote now h]
  cases lastSyncUser (partitionQueue db.syncQueue) with
  | none => rfl
  | some u => rfl

/-! ### Claim C4 -/

/-- Claim C4 (amended): success and failure of one drain cycle are
whole-cycle, not per-operation: when the cycle's error list is empty,
every queued operation is deleted; when any error occurred — in any
batch — every queued operation, including those of batches that
succeeded, is kept and has its retry counter incremented. -/
theorem c4_cycle_granular_retry (db : DB) (remote : Remote) (now : Nat) :
    ((performSync db remote now).errors = [] →
      (performSync db remote now).db.syncQueue = []) ∧
    ((performSync db remote now).errors ≠ [] →
      (performSync db remote now).db.syncQueue = db.syncQueue.map bumpRetry) := by
  by_cases h : db.syncQueue = []
  · rw [performSync_empty db remote now h]
    exact ⟨fun _ => h, fun hne => absurd rfl hne⟩
  · rw [performSync_syncQueue_eq db remote now h]
    constructor
    · intro he
      rw [if_pos he]
    · intro he
      rw [if_neg he]

/-- Counterexample for C4 as stated: with a habits upsert whose batch
fails and an entries upsert whose batch succeeds, the cycle reports only
the habits failure, yet the entries operation — whose own submission
succeeded — is kept in the queue with its retry counter incremented. -/
theorem c4_counterexample :
    (performSync ⟨[], [], [], [qHabitUpsert, qEntryUpsert]⟩
        ⟨some "boom", none, none, none⟩ 50).errors =
      ["Habits upsert failed: boom"] ∧
    (performSync ⟨[], [], [], [qHabitUpsert, qEntryUpsert]⟩
        ⟨some "boom", none, none, none⟩ 50).db.syncQueue =
      [{ qHabitUpsert with retryCount := 1 },
       { qEntryUpsert with retryCount := 1 }] := by
  constructor
  · decide
  · decide

/-- Witness for C4 at a concrete failing cycle: the error list is
non-empty, so every queued item is retained with its counter bumped. -/
theorem c4_cycle_granular_retry_witness :
    ((performSync ⟨[], [], [], [qHabitUpsert]⟩
        ⟨some "boom", none, none, none⟩ 50).errors ≠ []) ∧
    (performSync ⟨[], [], [], [qHabitUpsert]⟩
        ⟨some "boom", none, none, none⟩ 50).db.syncQueue =
      [qHabitUpsert].map bumpRetry :=
  ⟨by decide,
   (c4_cycle_granular_retry ⟨[], [], [], [qHabitUpsert]⟩
      ⟨some "boom", none, none, none⟩ 50).2 (by decide)⟩

theorem mem_queueBatch {q : List SyncQueueItem} {t : Table} {o : SyncOp}
    {d : QueueData} :
    d ∈ queueBatch t o q ↔
      ∃ it ∈ q, it.retryCount ≤ 5 ∧ it.table = t ∧ it.operation = o ∧
        it.data = d := by
  unfold queueBatch
  rw [List.mem_filterMap]
  constructor
  · rintro ⟨it, hit, heq⟩
    by_cases hc : it.retryCount ≤ 5 ∧ it.table = t ∧ it.operation = o
    · rw [if_pos hc] at heq
      cases heq
      exact ⟨it, hit, hc.1, hc.2.1, hc.2.2, rfl⟩
    · rw [if_neg hc] at heq
      cases heq
  · rintro ⟨it, hit, h1, h2, h3, rfl⟩
    exact ⟨it, hit, if_pos ⟨h1, h2, h3⟩⟩

theorem mem_queueErrors {q : List SyncQueueItem} {s : String} :
    s ∈ queueErrors q ↔
      ∃ it ∈ q, it.retryCount > 5 ∧
        s = "Item " ++ it.id ++ " exceeded max retries" := by
  unfold queueErrors
  rw [List.mem_filterMap]
  constructor
  · rintro ⟨it, hit, heq⟩
    by_cases hc : it.retryCount > 5
    · rw [if_pos hc] at heq
      cases heq
      exact ⟨it, hit, hc, rfl⟩
    · rw [if_neg hc] at heq
      cases heq
  · rintro ⟨it, hit, h1, rfl⟩
    exact ⟨it, hit, if_pos h1⟩

/-! ### Claim C3 -/

/-- Claim C3 (amended): the ceiling admits 6 submissions, not 5.  Every
record a drain cycle sends originates from a queue item with
`retryCount ≤ 5`, and conversely every queue item with `retryCount ≤ 5`
is sent; since a failing cycle increments every counter by one, an
operation that always fails remotely is sent in exactly 6 cycles
(`retryCount` 0 through 5).  Once its counter exceeds 5 the cycle
reports it in the returned error list as having exceeded max retries —
never silently dropping it — and keeps it queued with its counter
bumped. -/
theorem c3_retry_ceiling (db : DB) (remote : Remote) (now : Nat) :
    (∀ x ∈ sentOps (partitionQueue db.syncQueue),
      ∃ it ∈ db.syncQueue, it.retryCount ≤ 5 ∧ it.table = x.1 ∧
        it.operation = x.2.1 ∧ it.data.dataId = x.2.2) ∧
    (∀ it ∈ db.syncQueue, it.retryCount > 5 →
      ("Item " ++ it.id ++ " exceeded max retries") ∈
          (performSync db remote now).errors ∧
        (performSync db remote now).db.syncQueue =
          db.syncQueue.map bumpRetry) ∧
    (∀ it ∈ db.syncQueue, it.retryCount ≤ 5 →
      (it.table, it.operation, it.data.dataId) ∈
        sentOps (partitionQueue db.syncQueue)) := by
  refine ⟨?_, ?_, ?_⟩
  · intro x hx
    rw [partitionQueue_eq] at hx
    unfold sentOps at hx
    simp only [List.mem_append, List.mem_map] at hx
    rcases hx with ((⟨d, hd, rfl⟩ | ⟨i, hi, rfl⟩) | ⟨d, hd, rfl⟩) | ⟨i, hi, rfl⟩
    · obtain ⟨it, hit, h1, h2, h3, rfl⟩ := mem_queueBatch.mp hd
      exact ⟨it, hit, h1, h2, h3, rfl⟩
    · obtain ⟨d, hd, rfl⟩ := hi
      obtain ⟨it, hit, h1, h2, h3, rfl⟩ := mem_queueBatch.mp hd
      exact ⟨it, hit, h1, h2, h3, rfl⟩
    · obtain ⟨it, hit, h1, h2, h3, rfl⟩ := mem_queueBatch.mp hd
      exact ⟨it, hit, h1, h2, h3, rfl⟩
    · obtain ⟨d, hd, rfl⟩ := hi
      obtain ⟨it, hit, h1, h2, h3, rfl⟩ := mem_queueBatch.mp hd
      exact ⟨it, hit, h1, h2, h3, rfl⟩
  · intro it hit h5
    have hne : db.syncQueue ≠ [] := List.ne_nil_of_mem hit
    have herr : ("Item " ++ it.id ++ " exceeded max retries") ∈
        (performSync db remote now).errors := by
      rw [performSync_errors_eq db remote now hne]
      refine List.mem_append_left _ ?_
      have : (partitionQueue db.syncQueue).errors = queueErrors db.syncQueue := by
        rw [partitionQueue_eq]
      rw [this]
      exact mem_queueErrors.mpr ⟨it, hit, h5, rfl⟩
    refine ⟨herr, ?_⟩
    rw [performSync_syncQueue_eq db remote now hne,
      if_neg (List.ne_nil_of_mem herr)]
  · intro it hit h5
    rw [partitionQueue_eq]
    unfold sentOps
    simp only [List.mem_append, List.mem_map]
    cases ht : it.table with
    | habits =>
      cases ho : it.operation with
      | upsert =>
        exact Or.inl (Or.inl (Or.inl
          ⟨it.data, mem_queueBatch.mpr ⟨it, hit, h5, ht, ho, rfl⟩, rfl⟩))
      | delete =>
        exact Or.inl (Or.inl (Or.inr
          ⟨it.data.dataId,
            ⟨it.data, mem_queueBatch.mpr ⟨it, hit, h5, ht, ho, rfl⟩, rfl⟩,
            rfl⟩))
    | habit_entries =>
      cases ho : it.operation with
      | upsert =>
        exact Or.inl (Or.inr
          ⟨it.data, mem_queueBatch.mpr ⟨it, hit, h5, ht, ho, rfl⟩, rfl⟩)
      | delete =>
        exact Or.inr
          ⟨it.data.dataId,
            ⟨it.data, mem_queueBatch.mpr ⟨it, hit, h5, ht, ho, rfl⟩, rfl⟩,
            rfl⟩

/-- Counterexample for C3 as stated: starting from a fresh operation
(`retryCount = 0`), five failing cycles each submit it and bump its
counter to 5; the claim says it is then never sent a 6th time, yet the
sixth cycle issues it to the remote store again. -/
theorem c3_counterexample :
    qHabitUpsert.retryCount = 0 ∧
    (failStep (failStep (failStep (failStep (failStep
        ⟨[], [], [], [qHabitUpsert]⟩))))).syncQueue =
      [{ qHabitUpsert with retryCount := 5 }] ∧
    (performSync (failStep (failStep (failStep (failStep (failStep
        ⟨[], [], [], [qHabitUpsert]⟩))))) alwaysFail 99).sent =
      [SentBatch.habitsUpsert [QueueData.habitData sampleHabitLocal]] := by
  refine ⟨rfl, ?_, ?_⟩
  · decide
  · decide

/-- Witness for C3 at a concrete input: an item whose counter is past
the ceiling is reported in the error list and kept, and one under the
ceiling is part of the issued trace. -/
theorem c3_retry_ceiling_witness :
    ({ qHabitUpsert with retryCount := 6 } ∈
        ([{ qHabitUpsert with retryCount := 6 }, qEntryUpsert] :
          List SyncQueueItem) ∧
      ({ qHabitUpsert with retryCount := 6 } : SyncQueueItem).retryCount > 5) ∧
    ("Item habits:h1:1 exceeded max retries" ∈
      (performSync ⟨[], [], [],
          [{ qHabitUpsert with retryCount := 6 }, qEntryUpsert]⟩
        alwaysFail 99).errors) ∧
    ((qEntryUpsert.table, qEntryUpsert.operation, qEntryUpsert.data.dataId) ∈
      sentOps (partitionQueue
        ([{ qHabitUpsert with retryCount := 6 }, qEntryUpsert] :
          List SyncQueueItem))) := by
  refine ⟨⟨by decide, by decide⟩, ?_, ?_⟩
  · exact ((c3_retry_ceiling ⟨[], [],  [],
      [{ qHabitUpsert with retryCount := 6 }, qEntryUpsert]⟩ alwaysFail 99).2.1
      { qHabitUpsert with retryCount := 6 } (by decide) (by decide)).1
  · exact (c3_retry_ceiling ⟨[], [], [],
      [{ qHabitUpsert with retryCount := 6 }, qEntryUpsert]⟩ alwaysFail 99).2.2
      qEntryUpsert (by decide) (by decide)

/-! ### Claim C5 -/

/-- Counterexample for C5 as stated: with a delete of `h1` enqueued
before an upsert of `h1`, the cycle issues the upsert first and the
delete second — the delete-then-upsert enqueue order is reordered into
upsert-then-delete. -/
theorem c5_counterexample :
    (⟨[], [], [], [qHabitDelete, qHabitUpsert]⟩ : DB).syncQueue =
      [qHabitDelete, qHabitUpsert] ∧
    qHabitDelete.timestamp < qHabitUpsert.timestamp ∧
    sentOps (partitionQueue [qHabitDelete, qHabitUpsert]) =
      [(Table.habits, SyncOp.upsert, "h1"),
       (Table.habits, SyncOp.delete, "h1")] ∧
    (performSync ⟨[], [], [], [qHabitDelete, qHabitUpsert]⟩
        ⟨none, none, none, none⟩ 60).sent =
      [SentBatch.habitsUpsert [QueueData.habitData sampleHabitLocal],
       SentBatch.habitsDelete ["h1"]] := by
  refine ⟨rfl, by decide, by decide, by decide⟩

/-- Claim C5 (amended): a drain cycle does not issue operations in
global FIFO order; it issues four batches in the fixed order habits
upserts, habits deletes, entries upserts, entries deletes, each batch
preserving enqueue order internally (each is an order-preserving
filtering of the queue).  Consequently an upsert enqueued before a
delete on the same table keeps its relative order, while a delete
enqueued before an upsert is issued after it. -/
theorem c5_batch_order (db : DB) (remote : Remote) (now : Nat)
    (h : db.syncQueue ≠ []) :
    (performSync db remote now).sent = sentBatches (partitionQueue db.syncQueue) ∧
    sentOps (partitionQueue db.syncQueue) =
      (queueBatch .habits .upsert db.syncQueue).map
        (fun d => (Table.habits, SyncOp.upsert, d.dataId)) ++
      ((queueBatch .habits .delete db.syncQueue).map QueueData.dataId).map
        (fun i => (Table.habits, SyncOp.delete, i)) ++
      (queueBatch .habit_entries .upsert db.syncQueue).map
        (fun d => (Table.habit_entries, SyncOp.upsert, d.dataId)) ++
      ((queueBatch .habit_entries .delete db.syncQueue).map QueueData.dataId).map
        (fun i => (Table.habit_entries, SyncOp.delete, i)) := by
  refine ⟨performSync_sent_eq db remote now h, ?_⟩
  rw [partitionQueue_eq]
  rfl

/-- Witness for C5 at a concrete queue. -/
theorem c5_batch_order_witness :
    ((⟨[], [], [], [qHabitDelete, qHabitUpsert]⟩ : DB).syncQueue ≠ []) ∧
    (performSync ⟨[], [], [], [qHabitDelete, qHabitUpsert]⟩
        ⟨none, none, none, none⟩ 60).sent =
      sentBatches (partitionQueue
        (⟨[], [], [], [qHabitDelete, qHabitUpsert]⟩ : DB).syncQueue) :=
  ⟨by decide,
   (c5_batch_order ⟨[], [], [], [qHabitDelete, qHabitUpsert]⟩
      ⟨none, none, none, none⟩ 60 (by decide)).1⟩

/-! ### Claim C10 -/

/-- Counterexample for C10 as stated: the first queued upsert belongs to
owner `A` (an entries upsert), but the cycle stamps `last_sync_at` for
owner `B`, taken from the first habits upsert, and leaves no settings
record for `A` at all. -/
theorem c10_counterexample :
    (⟨[], [], [], [qEntryUpsertA, qHabitUpsertB]⟩ : DB).syncQueue =
      [qEntryUpsertA, qHabitUpsertB] ∧
    qEntryUpsertA.data.dataUserId = "A" ∧
    qHabitUpsertB.data.dataUserId = "B" ∧
    qEntryUpsertA.timestamp < qHabitUpsertB.timestamp ∧
    storeGet Settings.user_id
      (performSync ⟨[], [], [], [qEntryUpsertA, qHabitUpsertB]⟩
        ⟨none, none, none, none⟩ 77).db.settings "A" = none ∧
    storeGet Settings.user_id
      (performSync ⟨[], [], [], [qEntryUpsertA, qHabitUpsertB]⟩
        ⟨none, none, none, none⟩ 77).db.settings "B" =
      some ⟨"B", [], some 77⟩ := by
  refine ⟨rfl, rfl, rfl, by decide, by decide, by decide⟩

/-- Claim C10 (amended): after a non-empty cycle, `last_sync_at` is
overwritten with the current time for the owner of the first queued
habits upsert (falling back to the first queued entries upsert when no
habits upsert is queued; an empty `user_id` falls through) regardless of
whether the remote batches failed; and a cycle whose queue holds only
deletes never touches the settings store at all. -/
theorem c10_watermark (db : DB) (remote : Remote) (now : Nat) :
    ((∀ it ∈ db.syncQueue, it.operation = .delete) →
      (performSync db remote now).db.settings = db.settings) ∧
    (∀ d, (queueBatch .habits .upsert db.syncQueue).head? = some d →
      d.dataUserId ≠ "" →
      ∃ s, storeGet Settings.user_id
          (performSync db remote now).db.settings d.dataUserId = some s ∧
        s.last_sync_at = some now) ∧
    (queueBatch .habits .upsert db.syncQueue = [] →
      ∀ d, (queueBatch .habit_entries .upsert db.syncQueue).head? = some d →
      d.dataUserId ≠ "" →
      ∃ s, storeGet Settings.user_id
          (performSync db remote now).db.settings d.dataUserId = some s ∧
        s.last_sync_at = some now) := by
  refine ⟨?_, ?_, ?_⟩
  · intro hdel
    by_cases hq : db.syncQueue = []
    · rw [performSync_empty db remote now hq]
    · have hbu : queueBatch .habits .upsert db.syncQueue = [] := by
        rw [queueBatch, List.filterMap_eq_nil_iff]
        intro it hit
        rw [if_neg]
        rintro ⟨-, -, ho⟩
        rw [hdel it hit] at ho
        cases ho
      have heu : queueBatch .habit_entries .upsert db.syncQueue = [] := by
        rw [queueBatch, List.filterMap_eq_nil_iff]
        intro it hit
        rw [if_neg]
        rintro ⟨-, -, ho⟩
        rw [hdel it hit] at ho
        cases ho
      have hls : lastSyncUser (partitionQueue db.syncQueue) = none := by
        rw [partitionQueue_eq]
        unfold lastSyncUser
        simp [hbu, heu]
      rw [performSync_db_eq db remote now hq, hls]
  · intro d hd hne
    have hq : db.syncQueue ≠ [] := by
      intro hq
      rw [hq] at hd
      cases hd
    have hls : lastSyncUser (partitionQueue db.syncQueue) = some d.dataUserId := by
      rw [partitionQueue_eq]
      unfold lastSyncUser
      simp [hd, hne]
    rw [performSync_db_eq db remote now hq, hls]
    refine ⟨_, storeGet_storePut_self Settings.user_id _ _, rfl⟩
  · intro hbu d hd hne
    have hq : db.syncQueue ≠ [] := by
      intro hq
      rw [hq] at hd
      cases hd
    have hls : lastSyncUser (partitionQueue db.syncQueue) = some d.dataUserId := by
      rw [partitionQueue_eq]
      unfold lastSyncUser
      simp [hbu, hd, hne]
    rw [performSync_db_eq db remote now hq, hls]
    refine ⟨_, storeGet_storePut_self Settings.user_id _ _, rfl⟩

/-- Witness for C10 at a concrete input: a failing cycle with one habits
upsert still stamps `last_sync_at`, and a delete-only cycle leaves
settings untouched. -/
theorem c10_watermark_witness :
    ((queueBatch .habits .upsert
        (⟨[], [], [], [qHabitUpsert]⟩ : DB).syncQueue).head? =
      some (QueueData.habitData sampleHabitLocal) ∧
      (QueueData.habitData sampleHabitLocal).dataUserId ≠ "") ∧
    (∃ s, storeGet Settings.user_id
        (performSync ⟨[], [], [], [qHabitUpsert]⟩ alwaysFail 80).db.settings
        (QueueData.habitData sampleHabitLocal).dataUserId = some s ∧
      s.last_sync_at = some 80) ∧
    ((∀ it ∈ ([qHabitDelete] : List SyncQueueItem), it.operation = .delete) ∧
      (performSync ⟨[], [], [], [qHabitDelete]⟩ alwaysFail 80).db.settings = []) :=
  ⟨⟨by decide, by decide⟩,
   (c10_watermark ⟨[], [], [], [qHabitUpsert]⟩ alwaysFail 80).2.1
     (QueueData.habitData sampleHabitLocal) (by decide) (by decide),
   ⟨by decide,
    (c10_watermark ⟨[], [], [], [qHabitDelete]⟩ alwaysFail 80).1 (by decide)⟩⟩

/-! ### Claim C1 -/

/-- Claim C1, evaluated at the failing input: with habit `h1` and one of
its entries in the store, `deleteHabit(u, h1)` removes the habit and
enqueues exactly one habits delete — the entry stays in the local store
as an orphan and no entry delete is enqueued, contrary to the
cascade-enqueue the specification requires. -/
theorem c1_delete_habit_no_cascade :
    (deleteHabit ⟨[sampleHabitLocal], [sampleEntry], [], []⟩ "u" "h1" 30).habits =
      [] ∧
    (deleteHabit ⟨[sampleHabitLocal], [sampleEntry], [], []⟩ "u" "h1" 30).habitEntries =
      [sampleEntry] ∧
    (deleteHabit ⟨[sampleHabitLocal], [sampleEntry], [], []⟩ "u" "h1" 30).syncQueue =
      [⟨"habits:h1:30", .habits, .delete, .delData "h1" "u", 30, 0⟩] := by
  refine ⟨by decide, by decide, by decide⟩

/-! ### Claim C6 -/

/-- Counterexample for C6 as stated: when the queue insertion throws
after the entry write committed (the two steps run in separate
transactions), the durable state holds the written entry with an
unchanged (here empty) queue — a local write without its queued
operation. -/
theorem c6_counterexample :
    saveHabitEntryRun ⟨[], [], [], []⟩ "u" "h1" "2024-01-01"
        ⟨1, none, none⟩ 10 false =
      Except.error ⟨[], [mkEntry "u" "h1" "2024-01-01" ⟨1, none, none⟩ 10], [], []⟩ := by
  rfl

/-- Claim C6 (amended): `saveHabitEntry` performs the local write and
the enqueue sequentially; when both steps succeed, both effects are
present; when the enqueue step fails, the call throws with the local
write already durable and the queue unchanged — so an enqueued operation
without its local write is impossible, but a durable local write without
its queued operation is. -/
theorem c6_write_then_enqueue (db : DB) (u h d : String) (data : EntryData)
    (now : Nat) :
    (∀ e db2, saveHabitEntryRun db u h d data now true = .ok (e, db2) →
      e = mkEntry u h d data now ∧
      storeGet HabitEntry.id db2.habitEntries (generateEntryId u h d) =
        some (mkEntry u h d data now) ∧
      db2.syncQueue = db.syncQueue ++
        [⟨"habit_entries:" ++ generateEntryId u h d ++ ":" ++ toString now,
          .habit_entries, .upsert, .entryData (mkEntry u h d data now), now, 0⟩]) ∧
    (∀ db1, saveHabitEntryRun db u h d data now false = .error db1 →
      storeGet HabitEntry.id db1.habitEntries (generateEntryId u h d) =
        some (mkEntry u h d data now) ∧
      db1.syncQueue = db.syncQueue) := by
  constructor
  · intro e db2 hok
    have hred : saveHabitEntryRun db u h d data now true =
        Except.ok (mkEntry u h d data now,
          queueForSync
            { db with habitEntries :=
                storePut HabitEntry.id db.habitEntries (mkEntry u h d data now) }
            .habit_entries .upsert (.entryData (mkEntry u h d data now)) now) := rfl
    rw [hred] at hok
    injection hok with hp
    have he : e = mkEntry u h d data now := (congrArg Prod.fst hp).symm
    have hdb : db2 = queueForSync
        { db with habitEntries :=
            storePut HabitEntry.id db.habitEntries (mkEntry u h d data now) }
        .habit_entries .upsert (.entryData (mkEntry u h d data now)) now :=
      (congrArg Prod.snd hp).symm
    subst he
    subst hdb
    exact ⟨rfl, storeGet_storePut_self HabitEntry.id (mkEntry u h d data now)
      db.habitEntries, rfl⟩
  · intro db1 herr
    have hred : saveHabitEntryRun db u h d data now false =
        Except.error
          { db with habitEntries :=
              storePut HabitEntry.id db.habitEntries (mkEntry u h d data now) } := rfl
    rw [hred] at herr
    injection herr with hp
    rw [← hp]
    exact ⟨storeGet_storePut_self HabitEntry.id (mkEntry u h d data now)
      db.habitEntries, rfl⟩

/-- Witness for C6 at a concrete input, exercising the failing-enqueue
branch. -/
theorem c6_write_then_enqueue_witness :
    (saveHabitEntryRun ⟨[], [], [], []⟩ "u" "h1" "2024-01-01"
        ⟨1, none, none⟩ 10 false =
      Except.error ⟨[], [mkEntry "u" "h1" "2024-01-01" ⟨1, none, none⟩ 10], [], []⟩) ∧
    (storeGet HabitEntry.id
        ([mkEntry "u" "h1" "2024-01-01" ⟨1, none, none⟩ 10] : List HabitEntry)
        (generateEntryId "u" "h1" "2024-01-01") =
      some (mkEntry "u" "h1" "2024-01-01" ⟨1, none, none⟩ 10) ∧
      ([] : List SyncQueueItem) = []) :=
  ⟨by rfl,
   (c6_write_then_enqueue ⟨[], [], [], []⟩ "u" "h1" "2024-01-01"
      ⟨1, none, none⟩ 10).2
     ⟨[], [mkEntry "u" "h1" "2024-01-01" ⟨1, none, none⟩ 10], [], []⟩ (by rfl)⟩

/-! ### Claim C8 -/

/-- Claim C8, evaluated at the failing input: with an empty log and
steps v2 (which fails) then v3, the runner logs the v2 failure, keeps
the pre-run backup — but then still applies v3 (`applied = 1`, a v3
success record after the v2 failure record), instead of stopping at the
failed version as the specification requires. -/
theorem c8_runner_continues_past_failure :
    (runMigrations [migV2fail, migV3ok] ⟨[], [], [], []⟩ ⟨none, []⟩ 70).applied =
      1 ∧
    (runMigrations [migV2fail, migV3ok] ⟨[], [], [], []⟩ ⟨none, []⟩ 70).state.log =
      [⟨2, 70, false, some "boom"⟩, ⟨3, 70, true, none⟩] ∧
    (runMigrations [migV2fail, migV3ok] ⟨[], [], [], []⟩ ⟨none, []⟩ 70).errors =
      ["Migration m2 failed: boom"] ∧
    (runMigrations [migV2fail, migV3ok] ⟨[], [], [], []⟩ ⟨none, []⟩ 70).state.backup =
      some ([], [], []) := by
  refine ⟨by decide, by decide, by decide, by decide⟩

end Mausam
